import Mathlib

/-!
Shallow embedding of `bobappleyard/readline` (`readline.go`), a Go binding
to GNU Readline, together with proofs about the claims of its specification.

The native readline library is modelled explicitly where the Go code depends
on it:
 * the native `readline(prompt)` call is modelled by its observable result,
   an `Option String` (`some line` on success, `none`/null on end of input);
 * the native history ring is modelled as a `List String` (index 0 oldest),
   with `history_get` 1-based as in the C API;
 * the native completion entry protocol is modelled by explicit state passing
   of the `entries` cache.

Go strings are sequences of bytes; all the operations modelled here treat
them opaquely (equality, emptiness, conversion to a byte slice), so they are
modelled by Lean `String` and byte slices by `List Char`.  Machine integers
never overflow in any modelled path, so Go `int` is modelled by `Nat` where
it is a length or an index.
-/

set_option autoImplicit false

namespace Readline

/-! ## Definitions -/

/-! ### History store adapter

Go source (`readline.go`):
```
func AddHistory(s string) {
    n := HistorySize()
    if n == 0 || s != GetHistory(n - 1) {
        C.add_history(C.CString(s))
    }
}
func GetHistory(i int) string {
    e := C.history_get(C.int(i+1))
    if e == nil { return "" }
    return C.GoString(e.line)
}
func ClearHistory() { C.clear_history() }
func HistorySize() int { return int(C.history_length) }
```
The native history is a list of entries; `history_get(j)` is 1-based
(returns null when out of range), `add_history` appends, `clear_history`
empties, `history_length` is the count.
-/

/-- Native `history_get`: 1-based lookup into the history ring, `none`
(null pointer) when out of range. -/
def history_get (h : List String) (j : Nat) : Option String :=
  if j = 0 then none else h.get? (j - 1)

/-- Native `add_history`: appends an entry to the ring. -/
def add_history (h : List String) (s : String) : List String :=
  h ++ [s]

/-- Native `clear_history`: removes all entries. -/
def clear_history (_h : List String) : List String :=
  []

/-- `HistorySize()` = `int(C.history_length)`. -/
def HistorySize (h : List String) : Nat :=
  h.length

/-- `GetHistory(i)`: calls `history_get(i+1)`; a null entry yields `""`. -/
def GetHistory (h : List String) (i : Nat) : String :=
  match history_get h (i + 1) with
  | none => ""
  | some e => e

/-- `AddHistory(s)`: appends unless `s` equals the current last entry. -/
def AddHistory (h : List String) (s : String) : List String :=
  let n := HistorySize h
  if n = 0 ∨ s ≠ GetHistory h (n - 1) then add_history h s else h

/-- `ClearHistory()`. -/
def ClearHistory (h : List String) : List String :=
  clear_history h

/-- A sequence of `AddHistory` calls applied in order. -/
def runAdds (h : List String) (ss : List String) : List String :=
  ss.foldl AddHistory h

/-- The number of calls in the sequence that are suppressed by the
exact-duplicate-of-previous policy (i.e. that leave the history unchanged). -/
def suppressedCount (h : List String) : List String → Nat
  | [] => 0
  | s :: rest =>
      (if HistorySize h ≠ 0 ∧ s = GetHistory h (HistorySize h - 1) then 1 else 0)
        + suppressedCount (AddHistory h s) rest

/-! ### Single-line read

Go source:
```
func String(prompt string) (string, error) {
    p := C.CString(prompt)
    rp := C.readline(p)
    s := C.GoString(rp)
    C.free(unsafe.Pointer(p))
    if rp != nil {
        C.free(unsafe.Pointer(rp))
        return s, nil
    }
    return s, io.EOF
}
```
`rp`, the native `readline` result, is `some line` (an allocated
null-terminated line without its trailing newline) or `none` (null, end of
input).  Go strings are immutable, so the prompt argument cannot be mutated;
the embedding is a pure function of it.
-/

/-- The error values of the binding: `io.EOF`, or any other error value
(indexed by a code); the code under analysis only ever constructs `eof`. -/
inductive Err
  | eof
  | other (code : Nat)
deriving DecidableEq

/-- `C.GoString`: copies a native string into a Go string; a null pointer
yields the empty string. -/
def goString : Option String → String
  | none => ""
  | some s => s

/-- `String(prompt)` as a function of the native `readline` result `rp`:
returns `(s, nil)` when `rp` is non-null and `(s, io.EOF)` when it is null,
where `s = C.GoString(rp)`. -/
def StringGo (prompt : String) (rp : Option String) : String × Option Err :=
  let _p := prompt       -- p := C.CString(prompt)
  let s := goString rp   -- s := C.GoString(rp)
  match rp with
  | some _ => (s, none)
  | none => (s, some .eof)

/-- Boundary allocation events performed by one call of `String`. -/
inductive Ev
  | allocPromptCopy   -- p := C.CString(prompt)
  | nativeLineAlloc   -- C.readline(p) allocates and returns a non-null line
  | copyLine          -- s := C.GoString(rp), the copy into Go-owned memory
  | freePromptCopy    -- C.free(unsafe.Pointer(p))
  | freeLine          -- C.free(unsafe.Pointer(rp))
deriving DecidableEq

/-- The ordered trace of boundary allocation events of one `String(prompt)`
call, following the source line by line: the prompt is copied to a native
allocation, `readline` returns a native allocation when non-null, `GoString`
copies it, the prompt copy is freed, and the line allocation is freed inside
the `if rp != nil` branch. -/
def stringEvents (rp : Option String) : List Ev :=
  [.allocPromptCopy]
    ++ (match rp with | some _ => [.nativeLineAlloc] | none => [])
    ++ [.copyLine, .freePromptCopy]
    ++ (match rp with | some _ => [.freeLine] | none => [])

/-! ### The line reader

Go source:
```
type reader struct { buf []byte; state state }

func NewReader() io.Reader { return new(reader) }

func (r *reader) getLine() error {
    prompt := Prompt
    if r.state == readerContinue { prompt = Continue }
    s, err := String(prompt)
    if err != nil { return err }
    r.buf = []byte(s)
    return nil
}

func (r *reader) Read(buf []byte) (int, error) {
    if r.state == readerEnd { return 0, io.EOF }
    if len(r.buf) == 0 {
        err := r.getLine()
        if err == io.EOF { r.state = readerEnd }
        if err != nil { return 0, err }
        r.state = readerContinue
    }
    copy(buf, r.buf)
    l := len(buf)
    if len(buf) > len(r.buf) { l = len(r.buf) }
    r.buf = r.buf[l:]
    return l, nil
}
```
A `Fetch` is the outcome of the `String(prompt)` call made by `getLine`.
Note `getLine` stores `[]byte(s)` into the buffer: the fetched line is NOT
newline-terminated by this code.  In `Read`, the copy step after the refill
block is inlined into both the refill path and the non-empty-buffer path;
the two are behaviourally identical since the refill block either returns or
falls through to the copy.
-/

/-- `state` with its three values `readerStart`, `readerContinue`,
`readerEnd`. -/
inductive RState
  | start
  | continuing
  | ended
deriving DecidableEq

/-- A rank embedding of the intended forward order
`start → continuing → ended`. -/
def stateRank : RState → Nat
  | .start => 0
  | .continuing => 1
  | .ended => 2

/-- The `reader` struct. -/
structure Reader where
  buf : List Char
  state : RState
deriving DecidableEq

/-- `NewReader()` = `new(reader)`: the zero value, empty buffer in state
`readerStart`. -/
def NewReader : Reader :=
  ⟨[], .start⟩

/-- The outcome of one `String(prompt)` call as seen by `getLine`:
a fetched line, or a failure. -/
inductive Fetch
  | line (s : String)
  | fail (e : Err)
deriving DecidableEq

/-- The prompt chosen by `getLine`:
`prompt := Prompt; if r.state == readerContinue { prompt = Continue }`. -/
def promptOf (primary cont : String) (st : RState) : String :=
  if st = .continuing then cont else primary

/-- `reader.getLine`, with `res` the outcome of its `String(prompt)` call:
on failure the error is returned and the reader untouched; on success the
buffer becomes `[]byte(s)`. -/
def getLine (r : Reader) (res : Fetch) : Option Err × Reader :=
  match res with
  | .fail e => (some e, r)
  | .line s => (none, { r with buf := s.data })

/-- Everything one `reader.Read(buf)` call returns and does: the bytes
copied into the caller's buffer, the returned count and error, the reader
after the call, and the prompt passed to `String` when a fetch happened. -/
structure ReadOut where
  data : List Char
  count : Nat
  err : Option Err
  rd : Reader
  promptUsed : Option String
deriving DecidableEq

/-- `reader.Read(buf)` with a caller buffer of length `n`; `primary` and
`cont` are the current values of the `Prompt` and `Continue` globals, and
`res` is the outcome of the `String` call should a fetch happen. -/
def Read (primary cont : String) (r : Reader) (res : Fetch) (n : Nat) :
    ReadOut :=
  if r.state = .ended then
    ⟨[], 0, some .eof, r, none⟩
  else if r.buf = [] then
    let p := promptOf primary cont r.state
    match getLine r res with
    | (some e, r1) =>
        let r2 := if e = .eof then { r1 with state := RState.ended } else r1
        ⟨[], 0, some e, r2, some p⟩
    | (none, r1) =>
        let r2 := { r1 with state := RState.continuing }
        let l := min n r2.buf.length
        ⟨r2.buf.take l, l, none, { r2 with buf := r2.buf.drop l }, some p⟩
  else
    let l := min n r.buf.length
    ⟨r.buf.take l, l, none, { r with buf := r.buf.drop l }, none⟩

/-- The fetch outcome induced by the actual `String` function: `String`
either succeeds with the line text or fails with `io.EOF`. -/
def fetchOfNative (prompt : String) (rp : Option String) : Fetch :=
  match StringGo prompt rp with
  | (s, none) => .line s
  | (_, some e) => .fail e

/-! ### Completion bridge

Go source:
```
func _completion_function(p *C.char, _i C.int) *C.char {
    C.rl_completion_suppress_append = 1
    i := int(_i)
    if i == 0 {
        es := Completer(C.GoString(p), C.GoString(C.rl_line_buffer))
        entries = make([]*C.char, len(es))
        for i, x := range es { entries[i] = C.CString(x) }
    }
    if i >= len(entries) { return nil }
    return entries[i]
}
```
The package-level `entries` cache is passed and returned explicitly.  A Go
completer returning `nil` is the empty list here.
-/

/-- Everything one `_completion_function` call returns and does. -/
structure CompOut where
  result : Option String        -- the returned char pointer (`none` = null)
  entries : List String         -- the `entries` cache after the call
  completerCalls : Nat          -- number of `Completer` invocations made
  suppressAppend : Bool         -- `rl_completion_suppress_append` set to 1
deriving DecidableEq

/-- `_completion_function(p, i)`: `completer` is the current `Completer`
hook, `lineBuffer` the current `rl_line_buffer`, `entries0` the cache from
the previous call. -/
def completionFunction (completer : String → String → List String)
    (p lineBuffer : String) (entries0 : List String) (i : Nat) : CompOut :=
  let es := if i = 0 then completer p lineBuffer else entries0
  let calls : Nat := if i = 0 then 1 else 0
  if es.length ≤ i then ⟨none, es, calls, true⟩
  else ⟨es.get? i, es, calls, true⟩

/-! ### Prompt escaping

Go source:
```
var shortEscRegex = "\x1b[@-Z\\-_]"
var csiPrefix = "(\x1b[[]|\xC2\x9b)"
var csiParam = "([0-9]+|\"[^\"]*\")"
var csiSuffix = "[@-~]"
var csiRegex = csiPrefix + "(" + csiParam + "(;" + csiParam + ")*)?" + csiSuffix
var escapeSeq = regexp.MustCompile(shortEscRegex + "|" + csiRegex)

const (
    PromptStartIgnore = rune(C.RL_PROMPT_START_IGNORE)   // '\001'
    PromptEndIgnore = rune(C.RL_PROMPT_END_IGNORE)       // '\002'
)

func EscapePrompt(s string) string {
    return escapeSeq.ReplaceAllString(s,
        string(PromptStartIgnore) + "$0" + string(PromptEndIgnore))
}
```
Go `regexp` matches with leftmost-first (Perl) semantics over the runes of
the string; `\xC2\x9b` in the pattern source is the UTF-8 encoding of the
single rune U+009B.  Strings are modelled at the rune level (`List Char`).

For this particular pattern, matching at a position is deterministic and
needs no backtracking, so it is embedded as a direct matcher:
 * the two top-level alternatives are disjoint (the short form requires the
   character after ESC to be in `[@-Z\-_]`, which excludes `[`, and the CSI
   form requires `ESC [` or the single rune U+009B), tried in regex order;
 * inside the CSI form, the characters that can extend a parameter list
   (digits, `"`, `;`) are disjoint from the final-character class `[@-~]`
   (digits are 0x30–0x39, `"` is 0x22, `;` is 0x3B, the class is
   0x40–0x7E), and a quoted parameter's extent is forced (up to the next
   `"`), so if the greedy parse of the optional parameter list fails to be
   followed by a final character, no other parse succeeds either and the
   whole alternative fails at this position.

`ReplaceAllString` with template `"\x01$0\x02"` rewrites each leftmost,
non-overlapping match `m` to `'\x01' :: m ++ ['\x02']`, resumes after the
match, and copies non-matching runes unchanged; this is `escapeLoop` below,
with fuel (every step consumes at least one rune, so `cs.length` suffices).
-/

/-- `RL_PROMPT_START_IGNORE` = `'\001'`. -/
def PromptStartIgnore : Char := Char.ofNat 1

/-- `RL_PROMPT_END_IGNORE` = `'\002'`. -/
def PromptEndIgnore : Char := Char.ofNat 2

/-- The ESC rune `\x1b`. -/
def escChar : Char := Char.ofNat 27

/-- The single-rune CSI introducer U+009B (`\xC2\x9b` in UTF-8). -/
def csiSingle : Char := Char.ofNat 155

/-- The double-quote rune. -/
def quoteChar : Char := Char.ofNat 34

/-- The character class `[@-Z\-_]` of `shortEscRegex`. -/
def isShortEscChar (c : Char) : Bool :=
  (decide (64 ≤ c.toNat) && decide (c.toNat ≤ 90)) || c == '-' || c == '_'

/-- The character class `[@-~]` of `csiSuffix`. -/
def isCsiFinalChar (c : Char) : Bool :=
  decide (64 ≤ c.toNat) && decide (c.toNat ≤ 126)

/-- The character class `[0-9]`. -/
def isDigitChar (c : Char) : Bool :=
  decide (48 ≤ c.toNat) && decide (c.toNat ≤ 57)

/-- Match `shortEscRegex` = `\x1b[@-Z\-_]` at the head; returns the matched
runes and the remainder. -/
def matchShortEsc : List Char → Option (List Char × List Char)
  | c1 :: c2 :: rest =>
      if c1 = escChar ∧ isShortEscChar c2 then some ([c1, c2], rest) else none
  | _ => none

/-- Match `csiPrefix` = `(\x1b[[]|\xC2\x9b)` at the head. -/
def matchCsiIntro : List Char → Option (List Char × List Char)
  | [] => none
  | [c1] => if c1 = csiSingle then some ([c1], []) else none
  | c1 :: c2 :: rest =>
      if c1 = escChar ∧ c2 = '[' then some ([c1, c2], rest)
      else if c1 = csiSingle then some ([c1], c2 :: rest)
      else none

/-- Match `csiParam` = `([0-9]+|"[^"]*")` at the head (digits greedily, or a
quoted parameter up to the forced closing quote). -/
def matchCsiParam : List Char → Option (List Char × List Char)
  | [] => none
  | c :: rest =>
      if isDigitChar c then
        some (c :: rest.takeWhile isDigitChar, rest.dropWhile isDigitChar)
      else if c = quoteChar then
        match rest.dropWhile (fun d => d != quoteChar) with
        | d :: rest2 =>
            some (c :: (rest.takeWhile (fun d => d != quoteChar) ++ [d]), rest2)
        | [] => none
      else none

/-- Match `(;csiParam)*` greedily at the head; never fails (matches the
empty sequence).  Each iteration consumes at least two runes, so fuel
`cs.length` is more than sufficient. -/
def matchParamTail : Nat → List Char → List Char × List Char
  | 0, cs => ([], cs)
  | _ + 1, [] => ([], [])
  | fuel + 1, c :: rest =>
      if c = ';' then
        match matchCsiParam rest with
        | some (p, rest2) =>
            let pr := matchParamTail fuel rest2
            (c :: (p ++ pr.1), pr.2)
        | none => ([], c :: rest)
      else ([], c :: rest)

/-- Match the optional parameter list `(csiParam(;csiParam)*)?` greedily at
the head; never fails. -/
def matchCsiParams (cs : List Char) : List Char × List Char :=
  match matchCsiParam cs with
  | none => ([], cs)
  | some (p, rest) =>
      let pr := matchParamTail rest.length rest
      (p ++ pr.1, pr.2)

/-- Match the CSI body after its introducer: the optional parameter list
followed by one character of `[@-~]`. -/
def matchCsiBody (cs : List Char) : Option (List Char × List Char) :=
  let pr := matchCsiParams cs
  match pr.2 with
  | c :: rest2 => if isCsiFinalChar c then some (pr.1 ++ [c], rest2) else none
  | [] => none

/-- Match the whole `escapeSeq` pattern at the head: the short form first,
then the CSI form, as in the regex alternation. -/
def matchEscape (cs : List Char) : Option (List Char × List Char) :=
  match matchShortEsc cs with
  | some r => some r
  | none =>
      match matchCsiIntro cs with
      | some (intro, rest) =>
          match matchCsiBody rest with
          | some (body, rest2) => some (intro ++ body, rest2)
          | none => none
      | none => none

/-- `ReplaceAllString` of `escapeSeq` with template
`string(PromptStartIgnore) + "$0" + string(PromptEndIgnore)`: each
leftmost match is wrapped in the two marker runes, non-matching runes are
copied unchanged, and scanning resumes after each match. -/
def escapeLoop : Nat → List Char → List Char
  | 0, cs => cs
  | _ + 1, [] => []
  | fuel + 1, c :: rest =>
      match matchEscape (c :: rest) with
      | some (m, rest2) =>
          PromptStartIgnore :: (m ++ PromptEndIgnore :: escapeLoop fuel rest2)
      | none => c :: escapeLoop fuel rest

/-- The replacement pass over a rune sequence. -/
def escapeSeqReplace (cs : List Char) : List Char :=
  escapeLoop cs.length cs

/-- `EscapePrompt(s)`. -/
def EscapePrompt (s : String) : String :=
  ⟨escapeSeqReplace s.data⟩

/-- `true` iff the pattern matches at some position of the rune sequence
(i.e. `escapeSeq.MatchString` would succeed). -/
def hasEscape : List Char → Bool
  | [] => false
  | c :: rest => (matchEscape (c :: rest)).isSome || hasEscape rest

/-! ## Theorems -/

/-! ### History -/

theorem AddHistory_length (h : List String) (s : String) :
    (AddHistory h s).length
      = h.length
        + (if HistorySize h ≠ 0 ∧ s = GetHistory h (HistorySize h - 1)
            then 0 else 1) := by
  by_cases h0 : HistorySize h = 0
  · simp [AddHistory, add_history, h0]
  · by_cases hs : s = GetHistory h (HistorySize h - 1)
    · simp [AddHistory, add_history, h0, hs]
    · simp [AddHistory, add_history, h0, hs]

theorem suppressedCount_le (ss : List String) (h : List String) :
    suppressedCount h ss ≤ ss.length := by
  induction ss generalizing h with
  | nil => simp [suppressedCount]
  | cons s rest ih =>
      simp only [suppressedCount, List.length_cons]
      have := ih (AddHistory h s)
      split <;> omega

theorem runAdds_length (ss : List String) (h : List String) :
    (runAdds h ss).length = h.length + ss.length - suppressedCount h ss := by
  induction ss generalizing h with
  | nil => simp [runAdds, suppressedCount]
  | cons s rest ih =>
      have hrec := ih (AddHistory h s)
      have hlen := AddHistory_length h s
      have hle := suppressedCount_le rest (AddHistory h s)
      simp only [runAdds, List.foldl_cons] at hrec ⊢
      simp only [suppressedCount, List.length_cons]
      by_cases hc : HistorySize h ≠ 0 ∧ s = GetHistory h (HistorySize h - 1)
      · simp only [if_pos hc] at hlen ⊢
        omega
      · simp only [if_neg hc] at hlen ⊢
        omega

/-- **C6.** A line is appended unless it equals the current last history
entry, so after any sequence of `AddHistory` calls the history size equals
the initial size plus the number of calls minus the number suppressed as
exact duplicates of the immediately preceding entry; in particular
`AddHistory "x"; AddHistory "x"` from empty yields size 1, and
`AddHistory "x"; AddHistory "y"; AddHistory "x"` yields size 3. -/
theorem addHistory_dedup_size (h : List String) (ss : List String) :
    HistorySize (runAdds h ss) = HistorySize h + ss.length - suppressedCount h ss
    ∧ HistorySize (runAdds [] ["x", "x"]) = 1
    ∧ HistorySize (runAdds [] ["x", "y", "x"]) = 3 := by
  refine ⟨runAdds_length ss h, by decide, by decide⟩

/-- **C7.** `GetHistory i` for any out-of-range index returns the empty
string (and signals no error), and after `ClearHistory` the size is 0 and
every index returns the empty string. -/
theorem getHistory_out_of_range (h : List String) (i j : Nat)
    (hi : HistorySize h ≤ i) :
    GetHistory h i = ""
    ∧ HistorySize (ClearHistory h) = 0
    ∧ GetHistory (ClearHistory h) j = "" := by
  refine ⟨?_, by simp [HistorySize, ClearHistory, clear_history], ?_⟩
  · have : h[i]? = none := List.getElem?_eq_none hi
    simp [GetHistory, history_get, this]
  · simp [GetHistory, history_get, ClearHistory, clear_history]

/-- Witness for C7 at a concrete input. -/
theorem getHistory_out_of_range_witness :
    GetHistory ["a"] 1 = ""
    ∧ HistorySize (ClearHistory ["a"]) = 0
    ∧ GetHistory (ClearHistory ["a"]) 0 = "" :=
  getHistory_out_of_range ["a"] 1 0 (by decide)

/-! ### Single-line read -/

/-- **C4.** `String` returns the line text together with no error when the
native read succeeds, and the empty string together with `io.EOF` when the
native component returns a null pointer; the prompt argument is a Go string,
which is immutable, and the embedding is a pure function of it. -/
theorem string_contract (prompt l : String) :
    StringGo prompt (some l) = (l, none)
    ∧ StringGo prompt none = ("", some Err.eof) :=
  ⟨rfl, rfl⟩

/-- **C9.** On every outcome of `String`: the native prompt copy is
allocated once and freed exactly once; the line allocation is freed exactly
as often as the native read allocates one (once when non-null, never when
null); and both frees happen only after the copy into Go-owned memory. -/
theorem string_frees_boundary_allocations (rp : Option String) :
    (stringEvents rp).count Ev.allocPromptCopy = 1
    ∧ (stringEvents rp).count Ev.freePromptCopy = 1
    ∧ (stringEvents rp).count Ev.freeLine
        = (stringEvents rp).count Ev.nativeLineAlloc
    ∧ (stringEvents rp).count Ev.copyLine = 1
    ∧ (stringEvents rp).indexOf Ev.copyLine
        < (stringEvents rp).indexOf Ev.freePromptCopy
    ∧ (stringEvents rp).indexOf Ev.copyLine
        < (stringEvents rp).indexOf Ev.freeLine := by
  cases rp with
  | none => decide
  | some s =>
      have h : stringEvents (some s)
          = [Ev.allocPromptCopy, Ev.nativeLineAlloc, Ev.copyLine,
             Ev.freePromptCopy, Ev.freeLine] := rfl
      rw [h]
      decide

/-- Helper: any `reader.Read` whose fetch outcome is a line or `io.EOF`
returns no error or `io.EOF`. -/
theorem Read_err_none_or_eof (primary cont : String) (r : Reader)
    (res : Fetch) (n : Nat) (hres : ∀ k, res ≠ Fetch.fail (Err.other k)) :
    (Read primary cont r res n).err = none
    ∨ (Read primary cont r res n).err = some Err.eof := by
  obtain ⟨buf, st⟩ := r
  cases res with
  | line s => cases st <;> cases buf <;> simp [Read, getLine]
  | fail e =>
      cases e with
      | eof => cases st <;> cases buf <;> simp [Read, getLine]
      | other k => exact absurd rfl (hres k)

/-- **C10.** The only non-nil error value ever produced is `io.EOF`:
`String` returns either the fetched text with no error or the empty string
with `io.EOF`, and a `reader.Read` whose fetch outcome comes from `String`
returns either no error or `io.EOF` — the reader's branch for other fetch
failures is unreachable. -/
theorem only_eof_errors (prompt : String) (rp : Option String)
    (primary cont : String) (r : Reader) (n : Nat) :
    (StringGo prompt rp = (goString rp, none)
      ∨ StringGo prompt rp = ("", some Err.eof))
    ∧ ((Read primary cont r (fetchOfNative prompt rp) n).err = none
      ∨ (Read primary cont r (fetchOfNative prompt rp) n).err = some Err.eof) := by
  constructor
  · cases rp
    · exact Or.inr rfl
    · exact Or.inl rfl
  · refine Read_err_none_or_eof primary cont r _ n ?_
    intro k
    cases rp <;> simp [fetchOfNative, StringGo, goString]

/-! ### The line reader -/

/-- **C1.** The claim fails on the code: at a fresh reader whose fetch
returns the line `"hello"`, read with a 16-byte caller buffer, the bytes
entering the stream are exactly `"hello"` with no record-separator
terminator — `getLine` stores `[]byte(s)`, not `[]byte(s + "\n")`. -/
theorem read_omits_record_separator :
    (getLine NewReader (Fetch.line "hello")).2.buf = "hello".data
    ∧ (Read "> " ".." NewReader (Fetch.line "hello") 16).data = "hello".data
    ∧ '\n' ∉ (Read "> " ".." NewReader (Fetch.line "hello") 16).data := by
  decide

/-- **C3.** The claim fails on the code: at a fresh reader whose fetch
returns the empty line, read with a 10-byte caller buffer, `Read` returns
0 with no error and no data even though the caller's buffer has nonzero
capacity, because the refilled buffer `[]byte("")` is empty. -/
theorem read_returns_zero_with_capacity :
    (Read "> " ".." NewReader (Fetch.line "") 10).count = 0
    ∧ (Read "> " ".." NewReader (Fetch.line "") 10).err = none
    ∧ (Read "> " ".." NewReader (Fetch.line "") 10).data = []
    ∧ (10 : Nat) ≠ 0 := by
  decide

/-- **C2.** The reader state machine: a fetch from a fresh (`Start`) reader
uses the primary prompt and a fetch in state `Continuing` uses the
continuation prompt; a successful fetch moves the state to `Continuing`;
an `io.EOF` fetch moves the state to `Ended` and propagates `io.EOF`; in
state `Ended` every read returns `io.EOF` immediately, fetches nothing and
changes nothing; any non-EOF fetch failure is propagated with the reader
unchanged; and the state only moves forward. -/
theorem reader_state_machine (primary cont : String) (r : Reader)
    (res : Fetch) (n k : Nat) :
    (r.state = RState.start → r.buf = [] →
      (Read primary cont r res n).promptUsed = some primary)
    ∧ (r.state = RState.continuing → r.buf = [] →
      (Read primary cont r res n).promptUsed = some cont)
    ∧ (∀ s, r.state ≠ RState.ended → r.buf = [] → res = Fetch.line s →
      (Read primary cont r res n).rd.state = RState.continuing)
    ∧ (r.state ≠ RState.ended → r.buf = [] → res = Fetch.fail Err.eof →
      (Read primary cont r res n).rd.state = RState.ended
        ∧ (Read primary cont r res n).err = some Err.eof)
    ∧ (r.state = RState.ended →
      Read primary cont r res n = ⟨[], 0, some Err.eof, r, none⟩)
    ∧ (r.state ≠ RState.ended → r.buf = [] → res = Fetch.fail (Err.other k) →
      (Read primary cont r res n).err = some (Err.other k)
        ∧ (Read primary cont r res n).rd = r)
    ∧ stateRank r.state ≤ stateRank (Read primary cont r res n).rd.state := by
  obtain ⟨buf, st⟩ := r
  refine ⟨?_, ?_, ?_, ?_, ?_, ?_, ?_⟩
  · intro hst hbuf
    simp only at hst hbuf
    subst hst hbuf
    cases res <;> simp [Read, getLine, promptOf]
  · intro hst hbuf
    simp only at hst hbuf
    subst hst hbuf
    cases res <;> simp [Read, getLine, promptOf]
  · intro s hst hbuf hres
    simp only at hst hbuf
    subst hbuf hres
    cases st <;> simp_all [Read, getLine]
  · intro hst hbuf hres
    simp only at hst hbuf
    subst hbuf hres
    cases st <;> simp_all [Read, getLine]
  · intro hst
    simp only at hst
    subst hst
    simp [Read]
  · intro hst hbuf hres
    simp only at hst hbuf
    subst hbuf hres
    cases st <;> simp_all [Read, getLine]
  · rcases res with s | e
    · cases st <;> cases buf <;> simp [Read, getLine, stateRank]
    · cases e <;> cases st <;> cases buf <;> simp [Read, getLine, stateRank]

/-- Witness for C2 at a concrete input: the first fetch of a fresh reader
uses the primary prompt. -/
theorem reader_state_machine_witness :
    (Read "> " ".." NewReader (Fetch.line "hi") 8).promptUsed = some "> " :=
  (reader_state_machine "> " ".." NewReader (Fetch.line "hi") 8 0).1 rfl rfl

/-! ### Completion bridge -/

/-- Helper: the completion callback in closed form — the cache is refreshed
from the completer exactly when the index is 0, the result is the checked
index into the cache, and the append-suppression flag is always set. -/
theorem completionFunction_eq (completer : String → String → List String)
    (p lineBuffer : String) (entries0 : List String) (i : Nat) :
    completionFunction completer p lineBuffer entries0 i
      = ⟨(if i = 0 then completer p lineBuffer else entries0).get? i,
         if i = 0 then completer p lineBuffer else entries0,
         if i = 0 then 1 else 0, true⟩ := by
  by_cases hi : i = 0
  · subst hi
    by_cases hlen : (completer p lineBuffer).length ≤ 0
    · simp [completionFunction, hlen, List.get?_eq_none.2 hlen]
    · simp [completionFunction, hlen]
  · by_cases hlen : entries0.length ≤ i
    · simp [completionFunction, hi, hlen, List.get?_eq_none.2 hlen]
    · simp [completionFunction, hi, hlen]

/-- **C5.** The completion callback at index 0 invokes the completer exactly
once with the partial word and the full line buffer and caches its
candidates, returning the first; at every index `i ≠ 0` it serves the cached
candidate at position `i` without re-invoking the completer, returning null
once `i` reaches the cache length; a completer returning nothing yields zero
candidates and a null result (there is no error channel). -/
theorem completion_bridge (completer : String → String → List String)
    (p lineBuffer : String) (entries0 : List String) (i : Nat) :
    (completionFunction completer p lineBuffer entries0 0).completerCalls = 1
    ∧ (completionFunction completer p lineBuffer entries0 0).entries
        = completer p lineBuffer
    ∧ (completionFunction completer p lineBuffer entries0 0).result
        = (completer p lineBuffer).get? 0
    ∧ (i ≠ 0 →
        (completionFunction completer p lineBuffer entries0 i).completerCalls = 0
        ∧ (completionFunction completer p lineBuffer entries0 i).entries = entries0
        ∧ (completionFunction completer p lineBuffer entries0 i).result
            = entries0.get? i)
    ∧ (entries0.length ≤ i → i ≠ 0 →
        (completionFunction completer p lineBuffer entries0 i).result = none)
    ∧ (completer p lineBuffer = [] →
        (completionFunction completer p lineBuffer entries0 0).result = none) := by
  simp only [completionFunction_eq]
  refine ⟨by simp, by simp, by simp, ?_, ?_, ?_⟩
  · intro hi
    simp [hi]
  · intro hlen hi
    simp only [if_neg hi]
    exact List.get?_eq_none.2 hlen
  · intro hnil
    simp [hnil]

/-! ### Prompt escaping -/

theorem matchCsiParam_length (cs p r : List Char)
    (h : matchCsiParam cs = some (p, r)) : r.length < cs.length := by
  cases cs with
  | nil => simp [matchCsiParam] at h
  | cons c rest =>
      simp only [matchCsiParam] at h
      by_cases hd : isDigitChar c = true
      · rw [if_pos hd] at h
        simp only [Option.some.injEq, Prod.mk.injEq] at h
        obtain ⟨-, hr⟩ := h
        subst hr
        simp only [List.length_cons]
        exact Nat.lt_succ_of_le
          (List.dropWhile_sublist (l := rest) isDigitChar).length_le
      · rw [if_neg hd] at h
        by_cases hq : c = quoteChar
        · rw [if_pos hq] at h
          cases hrem : rest.dropWhile (fun d => d != quoteChar) with
          | nil => rw [hrem] at h; simp at h
          | cons d rest2 =>
              rw [hrem] at h
              simp only [Option.some.injEq, Prod.mk.injEq] at h
              obtain ⟨-, hr⟩ := h
              subst hr
              have h1 : (d :: rest2).length ≤ rest.length := by
                rw [← hrem]
                exact (List.dropWhile_sublist (l := rest) _).length_le
              simp only [List.length_cons] at h1 ⊢
              omega
        · rw [if_neg hq] at h
          simp at h

theorem matchParamTail_length (fuel : Nat) (cs : List Char) :
    (matchParamTail fuel cs).2.length ≤ cs.length := by
  induction fuel generalizing cs with
  | zero => simp [matchParamTail]
  | succ fuel ih =>
      cases cs with
      | nil => simp [matchParamTail]
      | cons c rest =>
          simp only [matchParamTail]
          by_cases hc : c = ';'
          · rw [if_pos hc]
            cases hp : matchCsiParam rest with
            | none => simp
            | some pr =>
                obtain ⟨p, rest2⟩ := pr
                have h1 := matchCsiParam_length rest p rest2 hp
                have h2 := ih rest2
                dsimp only
                simp only [List.length_cons]
                omega
          · rw [if_neg hc]

theorem matchCsiParams_length (cs : List Char) :
    (matchCsiParams cs).2.length ≤ cs.length := by
  unfold matchCsiParams
  cases hp : matchCsiParam cs with
  | none => simp
  | some pr =>
      obtain ⟨p, rest⟩ := pr
      have h1 := matchCsiParam_length cs p rest hp
      have h2 := matchParamTail_length rest.length rest
      dsimp only
      omega

theorem matchCsiBody_length (cs b r : List Char)
    (h : matchCsiBody cs = some (b, r)) : r.length < cs.length := by
  simp only [matchCsiBody] at h
  have hp := matchCsiParams_length cs
  cases hrem : (matchCsiParams cs).2 with
  | nil => rw [hrem] at h; simp at h
  | cons c rest2 =>
      rw [hrem] at h
      dsimp only at h
      rw [hrem] at hp
      by_cases hf : isCsiFinalChar c = true
      · rw [if_pos hf] at h
        simp only [Option.some.injEq, Prod.mk.injEq] at h
        obtain ⟨-, hr⟩ := h
        subst hr
        simp only [List.length_cons] at hp
        omega
      · rw [if_neg hf] at h
        simp at h

theorem matchShortEsc_length (cs m r : List Char)
    (h : matchShortEsc cs = some (m, r)) : r.length < cs.length := by
  rcases cs with - | ⟨c1, - | ⟨c2, rest⟩⟩
  · simp [matchShortEsc] at h
  · simp [matchShortEsc] at h
  · simp only [matchShortEsc] at h
    split at h
    · simp only [Option.some.injEq, Prod.mk.injEq] at h
      obtain ⟨-, hr⟩ := h
      subst hr
      simp only [List.length_cons]
      omega
    · simp at h

theorem matchCsiIntro_length (cs m r : List Char)
    (h : matchCsiIntro cs = some (m, r)) : r.length < cs.length := by
  rcases cs with - | ⟨c1, - | ⟨c2, rest⟩⟩
  · simp [matchCsiIntro] at h
  · simp only [matchCsiIntro] at h
    split at h
    · simp only [Option.some.injEq, Prod.mk.injEq] at h
      obtain ⟨-, hr⟩ := h
      subst hr
      simp
    · simp at h
  · simp only [matchCsiIntro] at h
    split at h
    · simp only [Option.some.injEq, Prod.mk.injEq] at h
      obtain ⟨-, hr⟩ := h
      subst hr
      simp only [List.length_cons]
      omega
    · split at h
      · simp only [Option.some.injEq, Prod.mk.injEq] at h
        obtain ⟨-, hr⟩ := h
        subst hr
        simp only [List.length_cons]
        omega
      · simp at h

theorem matchEscape_length (cs m r : List Char)
    (h : matchEscape cs = some (m, r)) : r.length < cs.length := by
  unfold matchEscape at h
  cases hs : matchShortEsc cs with
  | some pr =>
      rw [hs] at h
      simp only [Option.some.injEq] at h
      subst h
      exact matchShortEsc_length cs m r hs
  | none =>
      rw [hs] at h
      cases hi : matchCsiIntro cs with
      | none => rw [hi] at h; simp at h
      | some pr =>
          rw [hi] at h
          obtain ⟨csIntro, rest⟩ := pr
          dsimp only at h
          cases hb : matchCsiBody rest with
          | none => rw [hb] at h; simp at h
          | some pr2 =>
              rw [hb] at h
              obtain ⟨body, rest2⟩ := pr2
              dsimp only at h
              simp only [Option.some.injEq, Prod.mk.injEq] at h
              obtain ⟨-, hr⟩ := h
              subst hr
              have h1 := matchCsiIntro_length cs csIntro rest hi
              have h2 := matchCsiBody_length rest body rest2 hb
              omega

theorem escapeLoop_fuel_eq (f1 : Nat) : ∀ (f2 : Nat) (cs : List Char),
    cs.length ≤ f1 → cs.length ≤ f2 → escapeLoop f1 cs = escapeLoop f2 cs := by
  induction f1 with
  | zero =>
      intro f2 cs h1 h2
      have hnil : cs = [] := List.length_eq_zero.mp (Nat.le_zero.mp h1)
      subst hnil
      cases f2 <;> rfl
  | succ f1 ih =>
      intro f2 cs h1 h2
      cases cs with
      | nil => cases f2 <;> rfl
      | cons c rest =>
          cases f2 with
          | zero => simp at h2
          | succ f2 =>
              simp only [escapeLoop]
              cases hm : matchEscape (c :: rest) with
              | some pr =>
                  obtain ⟨m, rest2⟩ := pr
                  have hlen := matchEscape_length (c :: rest) m rest2 hm
                  simp only [List.length_cons] at h1 h2 hlen
                  dsimp only
                  rw [ih f2 rest2 (by omega) (by omega)]
              | none =>
                  simp only [List.length_cons] at h1 h2
                  dsimp only
                  rw [ih f2 rest (by omega) (by omega)]

theorem escapeSeqReplace_match (cs m rest : List Char)
    (h : matchEscape cs = some (m, rest)) :
    escapeSeqReplace cs
      = PromptStartIgnore :: (m ++ PromptEndIgnore :: escapeSeqReplace rest) := by
  cases cs with
  | nil => simp [matchEscape, matchShortEsc, matchCsiIntro] at h
  | cons c cs2 =>
      have hlen := matchEscape_length (c :: cs2) m rest h
      simp only [List.length_cons] at hlen
      unfold escapeSeqReplace
      simp only [List.length_cons, escapeLoop, h]
      rw [escapeLoop_fuel_eq cs2.length rest.length rest (by omega) le_rfl]

theorem escapeSeqReplace_of_not_hasEscape (cs : List Char)
    (h : hasEscape cs = false) : escapeSeqReplace cs = cs := by
  induction cs with
  | nil => rfl
  | cons c rest ih =>
      simp only [hasEscape, Bool.or_eq_false_iff] at h
      obtain ⟨h1, h2⟩ := h
      have hnone : matchEscape (c :: rest) = none := by
        cases hm : matchEscape (c :: rest)
        · rfl
        · rw [hm] at h1; simp at h1
      unfold escapeSeqReplace
      simp only [List.length_cons, escapeLoop, hnone]
      show c :: escapeSeqReplace rest = c :: rest
      rw [ih h2]

/-- **C8.** `EscapePrompt` wraps every ANSI escape-sequence match (the
restricted short ESC form or the CSI form with optional numeric/quoted
parameters) with the `PromptStartIgnore`/`PromptEndIgnore` markers and
leaves non-matching text untouched: each leftmost match `m` is rewritten to
`start :: m ++ [end]` with scanning resuming on the remainder; a string
with no match anywhere is returned unchanged; and
`EscapePrompt "Command: \x1b[1m"` wraps exactly the `"\x1b[1m"` substring
and leaves `"Command: "` untouched. -/
theorem escapePrompt_wraps_escapes (s : String) (cs m rest : List Char)
    (hs : hasEscape s.data = false)
    (hm : matchEscape cs = some (m, rest)) :
    EscapePrompt s = s
    ∧ escapeSeqReplace cs
        = PromptStartIgnore :: (m ++ PromptEndIgnore :: escapeSeqReplace rest)
    ∧ EscapePrompt "Command: \x1b[1m" = "Command: \x01\x1b[1m\x02" := by
  refine ⟨?_, escapeSeqReplace_match cs m rest hm, by decide⟩
  show String.mk (escapeSeqReplace s.data) = s
  rw [escapeSeqReplace_of_not_hasEscape s.data hs]

/-- Witness for C8 at concrete inputs: a string with no escape sequences is
unchanged, and the match at `"\x1b[1m"` is wrapped. -/
theorem escapePrompt_wraps_escapes_witness :
    EscapePrompt "abc" = "abc"
    ∧ escapeSeqReplace ("\x1b[1m".data)
        = PromptStartIgnore
            :: ("\x1b[1m".data ++ PromptEndIgnore :: escapeSeqReplace [])
    ∧ EscapePrompt "Command: \x1b[1m" = "Command: \x01\x1b[1m\x02" :=
  escapePrompt_wraps_escapes "abc" "\x1b[1m".data "\x1b[1m".data []
    (by decide) (by decide)

/-- Witness for C5 at the spec's example `["foo", "foobar"]`. -/
theorem completion_bridge_witness :
    (completionFunction (fun _ _ => ["foo", "foobar"]) "fo" "fo"
        ["foo", "foobar"] 1).result = some "foobar"
    ∧ (completionFunction (fun _ _ => ["foo", "foobar"]) "fo" "fo"
        ["foo", "foobar"] 1).completerCalls = 0
    ∧ (completionFunction (fun _ _ => []) "fo" "fo" [] 0).result = none := by
  have h1 := (completion_bridge (fun _ _ => ["foo", "foobar"]) "fo" "fo"
    ["foo", "foobar"] 1).2.2.2.1 (by decide)
  have h2 := (completion_bridge (fun _ _ => ([] : List String)) "fo" "fo"
    [] 0).2.2.2.2.2 rfl
  exact ⟨h1.2.2.trans (by decide), h1.1, h2⟩

end Readline
